import Mathlib

/-!
Verification of the text-layout engine in `src/seedsigner/gui/components.py`.

The embedding models Python strings as `List Char` (so that splitting and
joining are kernel-computable), font metric queries as abstract functions
`Chars → ℕ` (the width/height returned by `font.getsize`), Python's
truncating `int(x / y)` as `Int.tdiv`, and the recursive
`_binary_len_search` / `while words:` loop of `TextArea.__post_init__` as
fuel-indexed functions returning `none` when the recursion does not
terminate within the given fuel.
-/

namespace Components

/-- Constant `EDGE_PADDING = 8` (components.py line 12). -/
def EDGE_PADDING : ℕ := 8

/-- Constant `COMPONENT_PADDING = 8` (components.py line 13). -/
def COMPONENT_PADDING : ℕ := 8

/-- Constant `BODY_FONT_NAME = "OpenSans-Regular"` (line 16). -/
def BODY_FONT_NAME : String := "OpenSans-Regular"

/-- Constant `BODY_FONT_SIZE = 17` (line 17). -/
def BODY_FONT_SIZE : ℕ := 17

/-- Constant `BODY_LINE_SPACING = 0.25` (line 18), an exact binary float, modelled as a rational. -/
def BODY_LINE_SPACING : ℚ := 1/4

/-- The metric data `calc_text_centering` queries from the font for a given
string: `font.getoffset(text)`, `font.getbbox(text, anchor='lt')` and
`font.getmetrics()` (lines 33-35). -/
structure FontMetrics where
  offset_x : ℤ
  offset_y : ℤ
  box_left : ℤ
  box_top : ℤ
  box_right : ℤ
  box_bottom : ℤ
  ascent : ℤ
  descent : ℤ
deriving DecidableEq, Repr

/-- Function `calc_text_centering` (lines 25-49).  Python's `int((a)/2)` truncates
toward zero, hence `Int.tdiv`. -/
def calc_text_centering (m : FontMetrics) (is_text_centered : Bool)
    (box_width box_height start_x start_y : ℤ) : ℤ × ℤ :=
  let text_x : ℤ :=
    if is_text_centered then
      Int.tdiv (box_width - (m.box_right - m.offset_x)) 2 - m.offset_x
    else
      (COMPONENT_PADDING : ℤ)
  let text_y : ℤ := Int.tdiv (box_height - (m.ascent - m.offset_y)) 2 - m.offset_y
  (start_x + text_x, start_y + text_y)

/-- The centering formula as the spec words it, with floor division
(`floor((box_width - (right - offset_x)) / 2)` etc.); kept separate from
`calc_text_centering` (translated from the source) for comparison. -/
def calc_text_centering_floor (m : FontMetrics) (is_text_centered : Bool)
    (box_width box_height start_x start_y : ℤ) : ℤ × ℤ :=
  let text_x : ℤ :=
    if is_text_centered then
      Int.fdiv (box_width - (m.box_right - m.offset_x)) 2 - m.offset_x
    else
      (COMPONENT_PADDING : ℤ)
  let text_y : ℤ := Int.fdiv (box_height - (m.ascent - m.offset_y)) 2 - m.offset_y
  (start_x + text_x, start_y + text_y)

/-- A handle produced by `ImageFont.truetype(path(font_name), size)`
(line 64), identified by the resource it was loaded from. -/
structure FontHandle where
  font_name : String
  size : ℕ
deriving DecidableEq, Repr

/-- Association-list lookup (models Python dict indexing). -/
def alistLookup {κ α : Type} [DecidableEq κ] : List (κ × α) → κ → Option α
  | [], _ => none
  | (k, v) :: rest, key => if k = key then some v else alistLookup rest key

/-- Association-list update (models Python dict assignment). -/
def alistSet {κ α : Type} [DecidableEq κ] : List (κ × α) → κ → α → List (κ × α)
  | [], key, v => [(key, v)]
  | (k, w) :: rest, key, v =>
    if k = key then (k, v) :: rest else (k, w) :: alistSet rest key v

/-- The class-level state of `Fonts`: the nested `fonts` dict
(`fonts[font_name][size]`, line 55) plus a counter of how many times a font
resource file has been loaded (each `ImageFont.truetype` call). -/
structure FontsState where
  fonts : List (String × List (ℕ × FontHandle))
  load_count : ℕ
deriving DecidableEq, Repr

/-- Method `Fonts.get_font` (lines 57-66): look up the per-name size dict
(creating it if absent), load and cache the font on a size miss, return the
cached handle. -/
def Fonts.get_font (st : FontsState) (font_name : String) (size : ℕ) :
    FontHandle × FontsState :=
  let sizes := (alistLookup st.fonts font_name).getD []
  match alistLookup sizes size with
  | some f => (f, { st with fonts := alistSet st.fonts font_name sizes })
  | none =>
    let f : FontHandle := ⟨font_name, size⟩
    (f, { fonts := alistSet st.fonts font_name ((size, f) :: sizes),
          load_count := st.load_count + 1 })

/-- Cache well-formedness: every cached handle was produced by loading the
keyed (name, size) pair.  Holds for every state reachable from the empty
cache, since `Fonts.get_font` is the only writer. -/
def FontsState.WF (st : FontsState) : Prop :=
  ∀ p ∈ st.fonts, ∀ q ∈ p.2, q.2 = FontHandle.mk p.1 q.1

instance (st : FontsState) : Decidable st.WF := by
  unfold FontsState.WF; infer_instance

/-- A Python string, modelled as its character sequence. -/
abbrev Chars := List Char

/-- Python's `text.split(" ")` (line 168): split at every single space,
keeping empty fields; the empty string yields `[""]`.  `List.splitOn` has
exactly these semantics. -/
def splitOnSpace (s : Chars) : List Chars := s.splitOn ' '

/-- Python's `" ".join(words)` (lines 153, 171). -/
def joinWords (ws : List Chars) : Chars := List.intercalate [' '] ws

/-- Width of the space-joined first `i` words as the font measures it:
`self.font.getsize(" ".join(words[0:index]))[0]` (line 153). -/
def prefixWidth (wOf : Chars → ℕ) (words : List Chars) (i : ℕ) : ℕ :=
  wOf (joinWords (words.take i))

/-- Assignment `self.line_spacing = int(BODY_LINE_SPACING * self.font_size)`
(line 113).  `0.25 * font_size` is exact float arithmetic equal to
`font_size / 4`, and `int` truncates, so this is `font_size tdiv 4`;
`lineSpacing_eq_floor` below relates it to the rational formula
`⌊BODY_LINE_SPACING * font_size⌋`. -/
def lineSpacing (font_size : ℕ) : ℤ :=
  Int.tdiv font_size 4

/-- The horizontal room available to a line of text:
`supersampled_width - 2 * EDGE_PADDING * supersampling_factor`
(lines 133, 155). -/
def availWidth (width supersampling_factor : ℕ) : ℤ :=
  (supersampling_factor * width : ℤ) - 2 * EDGE_PADDING * supersampling_factor

/-- Function `_binary_len_search(min_index, max_index)` (lines 146-166), indexed by
fuel since the Python original is unboundedly recursive; `none` means the
recursion did not finish within the fuel. -/
def binary_len_search (wOf : Chars → ℕ) (avail : ℤ) (words : List Chars) :
    ℕ → ℕ → ℕ → Option (ℕ × ℕ)
  | 0, _, _ => none
  | fuel + 1, min_index, max_index =>
    -- index = math.ceil((max_index + min_index) / 2), then forced ≥ 1
    let index0 := (max_index + min_index + 1) / 2
    let index := if index0 = 0 then 1 else index0
    let tw := prefixWidth wOf words index
    if avail < (tw : ℤ) then
      -- candidate too long; if min_index + 1 == index, step index back first
      binary_len_search wOf avail words fuel min_index
        (if min_index + 1 = index then index - 1 else index)
    else if index = max_index then
      some (index, tw)
    else
      binary_len_search wOf avail words fuel index max_index

/-- The `while words:` loop of `TextArea.__post_init__` (lines 169-172):
repeatedly consume the prefix found by `_binary_len_search(0, len(words))`.
Returns the consumed word chunks, one chunk per emitted line. -/
def wrap_words (wOf : Chars → ℕ) (avail : ℤ) : ℕ → List Chars → Option (List (List Chars))
  | _, [] => some []
  | 0, _ :: _ => none
  | fuel + 1, w0 :: ws =>
    match binary_len_search wOf avail (w0 :: ws) (fuel + 1) 0 (w0 :: ws).length with
    | none => none
    | some (index, _) =>
      match wrap_words wOf avail fuel ((w0 :: ws).drop index) with
      | none => none
      | some rest => some ((w0 :: ws).take index :: rest)

/-- One entry of `self.text_lines` (line 128): the line's text and its
rendering x-coordinate. -/
structure TextLine where
  text : Chars
  text_x : ℤ
deriving DecidableEq, Repr

/-- Quantity `total_text_height = text_height * len(lines) + line_spacing * (len(lines) - 1)`
(line 174). -/
def totalTextHeight (text_height : ℕ) (line_spacing : ℤ) (count : ℕ) : ℤ :=
  (text_height : ℤ) * count + line_spacing * ((count : ℤ) - 1)

/-- The layout state a successfully constructed `TextArea` exposes after
`__post_init__` (lines 108-187). -/
structure TextAreaResult where
  text_lines : List TextLine
  text_width : ℤ
  text_y : ℤ
  text_height : ℕ
  line_spacing : ℤ
  width : ℤ
  height : ℤ
  supersampled_width : ℤ
  supersampled_height : ℤ
deriving DecidableEq, Repr

/-- Constructor `TextArea.__post_init__` (lines 108-187).  `wOf`/`hOf` are the width and
height components of `font.getsize` for the font loaded at
`supersampling_factor * font_size`.  Result: `none` when the line-break
recursion does not terminate within `fuel`, `some (.error e)` when the
overflow exception is raised, `some (.ok r)` on success. -/
def textAreaPostInit (wOf hOf : Chars → ℕ) (fuel : ℕ) (text : Chars)
    (width height : ℕ) (is_text_centered : Bool)
    (font_size supersampling_factor : ℕ) :
    Option (Except String TextAreaResult) :=
  let ssw : ℤ := supersampling_factor * width
  let ssh0 : ℤ := supersampling_factor * height
  let line_spacing := lineSpacing font_size
  let tw := wOf text
  let text_height := hOf text
  let avail := availWidth width supersampling_factor
  -- _add_text_line(text, width) (lines 123-131)
  let addLine : Chars → ℕ → TextLine := fun t w =>
    { text := t,
      text_x :=
        if is_text_centered then Int.tdiv (ssw - w) 2
        else (supersampling_factor * EDGE_PADDING : ℤ) }
  if (tw : ℤ) < avail then
    -- the whole text fits on one line (lines 133-142)
    let lines := [addLine text tw]
    let text_width : ℤ := tw
    if height = 0 then
      some (Except.ok
        { text_lines := lines
          text_width := Int.tdiv text_width supersampling_factor
          text_y := 0
          text_height := text_height
          line_spacing := line_spacing
          width := Int.tdiv ssw supersampling_factor
          height := Int.tdiv (text_height : ℤ) supersampling_factor
          supersampled_width := ssw
          supersampled_height := (text_height : ℤ) })
    else
      some (Except.ok
        { text_lines := lines
          text_width := Int.tdiv text_width supersampling_factor
          -- line 142 multiplies the already-supersampled height by the
          -- supersampling factor again
          text_y := Int.tdiv ((supersampling_factor : ℤ) * ssh0 - text_height) 2
          text_height := text_height
          line_spacing := line_spacing
          width := Int.tdiv ssw supersampling_factor
          height := Int.tdiv ssh0 supersampling_factor
          supersampled_width := ssw
          supersampled_height := ssh0 })
  else
    -- multi-line path (lines 144-181)
    match wrap_words wOf avail fuel (splitOnSpace text) with
    | none => none
    | some chunks =>
      let lines := chunks.map fun c => addLine (joinWords c) (wOf (joinWords c))
      let text_width : ℤ := ((chunks.map fun c => wOf (joinWords c)).foldl max 0 : ℕ)
      let total := totalTextHeight text_height line_spacing chunks.length
      if 0 < height ∧ ssh0 + 2 * (COMPONENT_PADDING : ℤ) * supersampling_factor < total then
        some (Except.error "Text cannot fit in target rect with this font/size")
      else
        let ssh1 := total
        some (Except.ok
          { text_lines := lines
            text_width := Int.tdiv text_width supersampling_factor
            text_y := Int.tdiv (ssh1 - total) 2
            text_height := text_height
            line_spacing := line_spacing
            width := Int.tdiv ssw supersampling_factor
            height := Int.tdiv ssh1 supersampling_factor
            supersampled_width := ssw
            supersampled_height := ssh1 })

/-- The stacked height of a constructed result's lines. -/
def stackedHeight (r : TextAreaResult) : ℤ :=
  totalTextHeight r.text_height r.line_spacing r.text_lines.length

/-- The y-coordinate at which `TextArea.render` draws line `i` (lines
196-203): `cur_y` starts at `text_y` and grows by
`text_height + line_spacing` per line. -/
def renderYAt (r : TextAreaResult) (i : ℕ) : ℤ :=
  r.text_y + i * ((r.text_height : ℤ) + r.line_spacing)

/-- Observer: the constructed result, if construction succeeded. -/
def okResult : Option (Except String TextAreaResult) → Option TextAreaResult
  | some (Except.ok r) => some r
  | _ => none

/-- Observer: whether construction raised the overflow exception. -/
def raisesOverflow : Option (Except String TextAreaResult) → Bool
  | some (Except.error _) => true
  | _ => false

/-- Observer: the text content of each laid-out line. -/
def lineTexts (r : TextAreaResult) : List Chars :=
  r.text_lines.map TextLine.text

/-- A concrete font-width measure for witnesses: every character one pixel
wide (monotone, as real glyph advances are). -/
def charCountWidth : Chars → ℕ := List.length

/-- A concrete font-height measure for witnesses: constant line height. -/
def constHeight (h : ℕ) : Chars → ℕ := fun _ => h

/-- Each emitted chunk is the maximum prefix of the remaining words whose
space-joined measured width fits in `avail`. -/
def maxFitChunks (wOf : Chars → ℕ) (avail : ℤ) : List Chars → List (List Chars) → Prop
  | words, [] => words = []
  | words, c :: cs =>
    ∃ k, 1 ≤ k ∧ k ≤ words.length ∧ c = words.take k ∧
      ((prefixWidth wOf words k : ℤ) ≤ avail) ∧
      (∀ j ≤ words.length, ((prefixWidth wOf words j : ℤ) ≤ avail) → j ≤ k) ∧
      maxFitChunks wOf avail (words.drop k) cs

/-- The layout computed for the witness input
`TextArea("ab", width=100, height=0, font_size=17, ssf=1)` under
`charCountWidth`/`constHeight 10`. -/
def sampleResult17 : TextAreaResult :=
  { text_lines := [{ text := ['a', 'b'], text_x := 49 }], text_width := 2, text_y := 0,
    text_height := 10, line_spacing := 4, width := 100, height := 10,
    supersampled_width := 100, supersampled_height := 10 }

/-- The layout computed for the witness input
`TextArea("aa bb", width=19, height=10, font_size=4, ssf=1)` under
`charCountWidth`/`constHeight 10`: two wrapped lines, stacked height 21. -/
def sampleResultMulti : TextAreaResult :=
  { text_lines := [{ text := ['a', 'a'], text_x := 8 }, { text := ['b', 'b'], text_x := 8 }],
    text_width := 2, text_y := 0, text_height := 10, line_spacing := 1, width := 19,
    height := 21, supersampled_width := 19, supersampled_height := 21 }

/-! Helper lemmas. -/

theorem tdiv_two_eq_fdiv_two (a : ℤ) (ha : 0 ≤ a) : Int.tdiv a 2 = Int.fdiv a 2 := by
  rw [Int.tdiv_eq_ediv ha (by norm_num), Int.fdiv_eq_ediv a (by norm_num)]

theorem lineSpacing_eq_floor (fs : ℕ) : lineSpacing fs = ⌊BODY_LINE_SPACING * (fs : ℚ)⌋ := by
  unfold lineSpacing BODY_LINE_SPACING
  have h : (1/4 : ℚ) * (fs : ℚ) = ((fs : ℕ) : ℚ) / ((4 : ℕ) : ℚ) := by push_cast; ring
  rw [h, Rat.floor_natCast_div_natCast, Int.tdiv_eq_ediv (by positivity) (by norm_num)]
  norm_num

/-- Claim C6 counterexample: with a text extent wider than the box the
source truncates toward zero while the spec's formula floors. -/
theorem calc_text_centering_cex :
    calc_text_centering ⟨0, 0, 0, 0, 3, 0, 0, 0⟩ true 0 10 0 0 ≠
      calc_text_centering_floor ⟨0, 0, 0, 0, 3, 0, 0, 0⟩ true 0 10 0 0 := by
  decide

/-- Claim C6 (amended): when the box is at least as large as the text
extent, truncating division agrees with the spec's floor formula. -/
theorem calc_text_centering_eq_floor (m : FontMetrics) (c : Bool)
    (box_width box_height start_x start_y : ℤ)
    (hx : m.box_right - m.offset_x ≤ box_width)
    (hy : m.ascent - m.offset_y ≤ box_height) :
    calc_text_centering m c box_width box_height start_x start_y =
      calc_text_centering_floor m c box_width box_height start_x start_y := by
  unfold calc_text_centering calc_text_centering_floor
  cases c with
  | false =>
    simp only [Bool.false_eq_true, if_false]
    rw [tdiv_two_eq_fdiv_two _ (by omega)]
  | true =>
    simp only [if_true]
    rw [tdiv_two_eq_fdiv_two _ (by omega), tdiv_two_eq_fdiv_two _ (by omega)]

theorem calc_text_centering_eq_floor_witness :
    ((5 : ℤ) - 1 ≤ 30) ∧ ((7 : ℤ) - 2 ≤ 40) ∧
      calc_text_centering ⟨1, 2, 0, 0, 5, 0, 7, 1⟩ true 30 40 0 0 =
        calc_text_centering_floor ⟨1, 2, 0, 0, 5, 0, 7, 1⟩ true 30 40 0 0 :=
  ⟨by decide, by decide,
    calc_text_centering_eq_floor ⟨1, 2, 0, 0, 5, 0, 7, 1⟩ true 30 40 0 0
      (by decide) (by decide)⟩

/-- Claim C5: when the whole text measures strictly narrower than the
available width, construction succeeds with exactly one line equal to the
input text. -/
theorem textArea_single_line (wOf hOf : Chars → ℕ) (fuel : ℕ) (text : Chars)
    (width height : ℕ) (c : Bool) (fs ssf : ℕ)
    (h : (wOf text : ℤ) < availWidth width ssf) :
    (okResult (textAreaPostInit wOf hOf fuel text width height c fs ssf)).map lineTexts
      = some [text] := by
  simp only [textAreaPostInit]
  rw [if_pos h]
  by_cases h0 : height = 0 <;> simp [h0, okResult, lineTexts]

theorem textArea_single_line_witness :
    ((charCountWidth ("hi".data) : ℤ) < availWidth 100 1) ∧
      (okResult (textAreaPostInit charCountWidth (constHeight 10) 5 ("hi".data) 100 0 true 17 1)).map
        lineTexts = some ["hi".data] :=
  ⟨by decide,
    textArea_single_line charCountWidth (constHeight 10) 5 ("hi".data) 100 0 true 17 1 (by decide)⟩

/-- Claim C9 counterexample: at `font_size = 19` the source's spacing is
`int(0.25 * 19) = 4`, not `round(0.25 * 19) = 5`. -/
theorem textArea_line_spacing_cex :
    (okResult (textAreaPostInit charCountWidth (constHeight 10) 5 ("ab".data) 100 0 true 19 1)).map
        TextAreaResult.line_spacing ≠
      some (round (BODY_LINE_SPACING * ((19 : ℕ) : ℚ))) := by
  have h : round (BODY_LINE_SPACING * ((19 : ℕ) : ℚ)) = 5 := by
    rw [round_eq]; norm_num [BODY_LINE_SPACING]
  rw [h]; decide

/-- Claim C9 (amended): every constructed TextArea's inter-line spacing is
`⌊0.25 * font_size⌋` (the floor, not the round), and consecutive rendered
lines are exactly `text_height + ⌊0.25 * font_size⌋` apart. -/
theorem textArea_line_spacing_floor (wOf hOf : Chars → ℕ) (fuel : ℕ) (text : Chars)
    (width height : ℕ) (c : Bool) (fs ssf : ℕ) (r : TextAreaResult)
    (h : okResult (textAreaPostInit wOf hOf fuel text width height c fs ssf) = some r) :
    r.line_spacing = ⌊BODY_LINE_SPACING * (fs : ℚ)⌋ ∧
    ∀ i : ℕ, renderYAt r (i + 1) - renderYAt r i =
      (r.text_height : ℤ) + ⌊BODY_LINE_SPACING * (fs : ℚ)⌋ := by
  have hls : r.line_spacing = lineSpacing fs := by
    simp only [textAreaPostInit] at h
    split at h
    · split at h <;>
        · simp only [okResult, Option.some.injEq] at h
          subst h; rfl
    · split at h
      · simp [okResult] at h
      · split at h
        · simp [okResult] at h
        · simp only [okResult, Option.some.injEq] at h
          subst h; rfl
  have h1 : r.line_spacing = ⌊BODY_LINE_SPACING * (fs : ℚ)⌋ :=
    hls.trans (lineSpacing_eq_floor fs)
  refine ⟨h1, fun i => ?_⟩
  have hgap : renderYAt r (i + 1) - renderYAt r i = (r.text_height : ℤ) + r.line_spacing := by
    simp only [renderYAt]; push_cast; ring
  rw [hgap, h1]

theorem textArea_line_spacing_floor_witness :
    okResult (textAreaPostInit charCountWidth (constHeight 10) 5 ("ab".data) 100 0 true 17 1) =
        some sampleResult17 ∧
      sampleResult17.line_spacing = ⌊BODY_LINE_SPACING * ((17 : ℕ) : ℚ)⌋ ∧
      renderYAt sampleResult17 1 - renderYAt sampleResult17 0 =
        (sampleResult17.text_height : ℤ) + ⌊BODY_LINE_SPACING * ((17 : ℕ) : ℚ)⌋ :=
  ⟨rfl,
    (textArea_line_spacing_floor charCountWidth (constHeight 10) 5 ("ab".data) 100 0 true 17 1
      sampleResult17 rfl).1,
    (textArea_line_spacing_floor charCountWidth (constHeight 10) 5 ("ab".data) 100 0 true 17 1
      sampleResult17 rfl).2 0⟩

/-- Claim C4 counterexample: with declared height 10 the stacked height 21
exceeds it, yet no overflow error is raised (the source's check allows a
`2 * COMPONENT_PADDING * ssf` slack). -/
theorem textArea_overflow_cex :
    raisesOverflow
        (textAreaPostInit charCountWidth (constHeight 10) 10 ("aa bb".data) 19 10 true 4 1)
      = false ∧
    (okResult (textAreaPostInit charCountWidth (constHeight 10) 10 ("aa bb".data) 19 10 true 4 1)).map
        stackedHeight = some 21 ∧
    ¬ ((21 : ℤ) ≤ 10) :=
  ⟨rfl, rfl, by decide⟩

/-- Claim C4 (amended): the overflow error is raised iff the multi-line
path is taken, the height is fixed (non-zero), and the stacked height
exceeds the supersampled declared height plus `2 * COMPONENT_PADDING * ssf`;
in particular it is never raised when the height is auto, and no layout
result is produced when it is raised. -/
theorem textArea_overflow_iff (wOf hOf : Chars → ℕ) (fuel : ℕ) (text : Chars)
    (width height : ℕ) (c : Bool) (fs ssf : ℕ) :
    raisesOverflow (textAreaPostInit wOf hOf fuel text width height c fs ssf) = true ↔
      (¬ ((wOf text : ℤ) < availWidth width ssf) ∧
        ∃ chunks, wrap_words wOf (availWidth width ssf) fuel (splitOnSpace text) = some chunks ∧
          0 < height ∧
          (ssf : ℤ) * (height : ℤ) + 2 * (COMPONENT_PADDING : ℤ) * (ssf : ℤ) <
            totalTextHeight (hOf text) (lineSpacing fs) chunks.length) := by
  simp only [textAreaPostInit]
  by_cases hfit : (wOf text : ℤ) < availWidth width ssf
  · rw [if_pos hfit]
    by_cases h0 : height = 0 <;> simp [h0, raisesOverflow, hfit]
  · rw [if_neg hfit]
    cases hw : wrap_words wOf (availWidth width ssf) fuel (splitOnSpace text) with
    | none => simp [raisesOverflow]
    | some chunks =>
      dsimp only
      split
      · rename_i hcond
        exact iff_of_true rfl ⟨hfit, chunks, rfl, hcond.1, hcond.2⟩
      · rename_i hcond
        refine iff_of_false (by simp [raisesOverflow]) ?_
        rintro ⟨-, chunks', heq, hpos, hlt⟩
        rw [Option.some.injEq] at heq
        subst heq
        exact hcond ⟨hpos, hlt⟩

/-- Claim C7 counterexample: a single-line TextArea with fixed height 1
constructs successfully although its stacked text height is 10 (the
single-line path performs no height check at all). -/
theorem textArea_height_cex :
    (okResult (textAreaPostInit charCountWidth (constHeight 10) 5 ("ab".data) 100 1 true 17 1)).map
        stackedHeight = some 10 ∧
    raisesOverflow (textAreaPostInit charCountWidth (constHeight 10) 5 ("ab".data) 100 1 true 17 1)
      = false ∧
    ¬ ((10 : ℤ) ≤ 1) :=
  ⟨rfl, rfl, by decide⟩

/-- Claim C7 (amended): on the multi-line path the final supersampled
height is overwritten to exactly the stacked height (even for fixed
heights), and a successful fixed-height construction obeys the slackened
bound `stacked ≤ ssf * height + 2 * COMPONENT_PADDING * ssf`; on the
single-line path the height is never checked: auto height grows to the
measured text height, a fixed height keeps its declared supersampled
value. -/
theorem textArea_height_growth (wOf hOf : Chars → ℕ) (fuel : ℕ) (text : Chars)
    (width height : ℕ) (c : Bool) (fs ssf : ℕ) (r : TextAreaResult)
    (h : okResult (textAreaPostInit wOf hOf fuel text width height c fs ssf) = some r) :
    ((wOf text : ℤ) < availWidth width ssf →
        (height = 0 → r.supersampled_height = (hOf text : ℤ)) ∧
        (height ≠ 0 → r.supersampled_height = (ssf : ℤ) * (height : ℤ))) ∧
    (¬ ((wOf text : ℤ) < availWidth width ssf) →
        r.supersampled_height = stackedHeight r ∧
        (0 < height →
          stackedHeight r ≤
            (ssf : ℤ) * (height : ℤ) + 2 * (COMPONENT_PADDING : ℤ) * (ssf : ℤ))) := by
  simp only [textAreaPostInit] at h
  split at h
  · rename_i hfit
    split at h <;>
      · rename_i h0
        simp only [okResult, Option.some.injEq] at h
        subst h
        refine ⟨fun _ => ⟨fun hh => ?_, fun hh => ?_⟩, fun hn => absurd hfit hn⟩ <;> simp_all
  · rename_i hfit
    split at h
    · simp [okResult] at h
    · split at h
      · simp [okResult] at h
      · rename_i chunks _ hcond
        simp only [okResult, Option.some.injEq] at h
        subst h
        refine ⟨fun hc => absurd hc hfit, fun _ => ⟨?_, fun hpos => ?_⟩⟩
        · simp [stackedHeight, List.length_map]
        · rw [not_and] at hcond
          have h2 := hcond hpos
          rw [Int.not_lt] at h2
          simpa [stackedHeight, List.length_map] using h2

theorem textArea_height_growth_witness :
    ¬ ((charCountWidth ("aa bb".data) : ℤ) < availWidth 19 1) ∧
      (sampleResultMulti.supersampled_height = stackedHeight sampleResultMulti ∧
        (0 < 10 →
          stackedHeight sampleResultMulti ≤
            ((1 : ℕ) : ℤ) * ((10 : ℕ) : ℤ) + 2 * (COMPONENT_PADDING : ℤ) * ((1 : ℕ) : ℤ))) :=
  ⟨by decide,
    (textArea_height_growth charCountWidth (constHeight 10) 10 ("aa bb".data) 19 10 true 4 1
      sampleResultMulti rfl).2 (by decide)⟩

/-- Claim C8: on the single-line fixed-height path the source multiplies
the already-supersampled height by the supersampling factor again
(line 142), so the computed start offset (10) is not the centering value
`fdiv (block_height - stacked) 2 = 0`. -/
theorem textArea_vertical_center_bug :
    (okResult (textAreaPostInit charCountWidth (constHeight 20) 5 ("ab".data) 100 10 true 17 2)).map
        TextAreaResult.text_y = some 10 ∧
    (okResult (textAreaPostInit charCountWidth (constHeight 20) 5 ("ab".data) 100 10 true 17 2)).map
        (fun r => Int.fdiv (r.supersampled_height - stackedHeight r) 2) = some 0 ∧
    (10 : ℤ) ≠ 0 :=
  ⟨rfl, rfl, by decide⟩

/-! Association-list lemmas for the font cache. -/

theorem alistSet_self {κ α : Type} [DecidableEq κ] (l : List (κ × α)) (k : κ) (v : α)
    (h : alistLookup l k = some v) : alistSet l k v = l := by
  induction l with
  | nil => simp [alistLookup] at h
  | cons p rest ih =>
    obtain ⟨a, b⟩ := p
    by_cases hk : a = k
    · subst hk
      simp [alistLookup] at h
      simp [alistSet, h]
    · simp only [alistLookup, if_neg hk] at h
      simp [alistSet, hk, ih h]

theorem alistLookup_set {κ α : Type} [DecidableEq κ] (l : List (κ × α)) (k : κ) (v : α) :
    alistLookup (alistSet l k v) k = some v := by
  induction l with
  | nil => simp [alistSet, alistLookup]
  | cons p rest ih =>
    obtain ⟨a, b⟩ := p
    by_cases hk : a = k
    · subst hk; simp [alistSet, alistLookup]
    · simp [alistSet, alistLookup, hk, ih]

theorem alistLookup_mem {κ α : Type} [DecidableEq κ] (l : List (κ × α)) (k : κ) (v : α)
    (h : alistLookup l k = some v) : (k, v) ∈ l := by
  induction l with
  | nil => simp [alistLookup] at h
  | cons p rest ih =>
    obtain ⟨a, b⟩ := p
    by_cases hk : a = k
    · subst hk
      simp [alistLookup] at h
      subst h; exact List.mem_cons_self _ _
    · simp only [alistLookup, if_neg hk] at h
      exact List.mem_cons_of_mem _ (ih h)

/-- A `get_font` call whose (name, size) pair is already cached returns the
cached handle and leaves the state unchanged. -/
theorem get_font_hit (st : FontsState) (n : String) (sz : ℕ) (f : FontHandle)
    (h : alistLookup ((alistLookup st.fonts n).getD []) sz = some f) :
    Fonts.get_font st n sz = (f, st) := by
  have hname : alistLookup st.fonts n = some ((alistLookup st.fonts n).getD []) := by
    cases hl : alistLookup st.fonts n with
    | none => rw [hl] at h; simp [alistLookup] at h
    | some l => rfl
  simp only [Fonts.get_font, h]
  rw [alistSet_self _ _ _ hname]

theorem get_font_miss_fst (st : FontsState) (n : String) (sz : ℕ)
    (h : alistLookup ((alistLookup st.fonts n).getD []) sz = none) :
    (Fonts.get_font st n sz).1 = FontHandle.mk n sz := by
  simp [Fonts.get_font, h]

theorem get_font_miss_load (st : FontsState) (n : String) (sz : ℕ)
    (h : alistLookup ((alistLookup st.fonts n).getD []) sz = none) :
    (Fonts.get_font st n sz).2.load_count = st.load_count + 1 := by
  simp [Fonts.get_font, h]

theorem get_font_miss_cached (st : FontsState) (n : String) (sz : ℕ)
    (h : alistLookup ((alistLookup st.fonts n).getD []) sz = none) :
    alistLookup ((alistLookup (Fonts.get_font st n sz).2.fonts n).getD []) sz =
      some (FontHandle.mk n sz) := by
  simp only [Fonts.get_font, h]
  rw [alistLookup_set]
  simp [alistLookup]

theorem get_font_miss_other (st : FontsState) (n : String) (sz sz' : ℕ)
    (h : alistLookup ((alistLookup st.fonts n).getD []) sz = none) (hne : sz' ≠ sz) :
    alistLookup ((alistLookup (Fonts.get_font st n sz).2.fonts n).getD []) sz' =
      alistLookup ((alistLookup st.fonts n).getD []) sz' := by
  simp only [Fonts.get_font, h]
  rw [alistLookup_set]
  simp only [Option.getD_some, alistLookup]
  rw [if_neg fun hh => hne hh.symm]

/-- In a well-formed cache, the handle cached at (name, size) is the handle
loaded for that name and size. -/
theorem cached_handle_eq (st : FontsState) (hwf : st.WF) (n : String) (sz : ℕ) (f : FontHandle)
    (h : alistLookup ((alistLookup st.fonts n).getD []) sz = some f) :
    f = FontHandle.mk n sz := by
  cases hl : alistLookup st.fonts n with
  | none => rw [hl] at h; simp [alistLookup] at h
  | some l =>
    rw [hl] at h
    simp only [Option.getD_some] at h
    exact hwf _ (alistLookup_mem _ _ _ hl) _ (alistLookup_mem _ _ _ h)

/-- Claim C10: from a well-formed cache, a second `get_font` call with the
same (name, size) returns the same handle and leaves the state (hence the
load count) unchanged; a subsequent call with an uncached different size
performs exactly one more load and returns a distinct handle. -/
theorem get_font_cache_behavior (st : FontsState) (font_name : String) (s s' : ℕ)
    (hwf : st.WF) (hne : s' ≠ s)
    (hs' : alistLookup ((alistLookup st.fonts font_name).getD []) s' = none) :
    (Fonts.get_font (Fonts.get_font st font_name s).2 font_name s).1 =
        (Fonts.get_font st font_name s).1 ∧
    (Fonts.get_font (Fonts.get_font st font_name s).2 font_name s).2 =
        (Fonts.get_font st font_name s).2 ∧
    (Fonts.get_font (Fonts.get_font (Fonts.get_font st font_name s).2 font_name s).2
        font_name s').1 ≠ (Fonts.get_font st font_name s).1 ∧
    (Fonts.get_font (Fonts.get_font (Fonts.get_font st font_name s).2 font_name s).2
        font_name s').2.load_count = (Fonts.get_font st font_name s).2.load_count + 1 := by
  cases h0 : alistLookup ((alistLookup st.fonts font_name).getD []) s with
  | some f =>
    have e1 : Fonts.get_font st font_name s = (f, st) := get_font_hit st font_name s f h0
    have e2 : Fonts.get_font (Fonts.get_font st font_name s).2 font_name s = (f, st) := by
      rw [e1]; exact e1
    have hf := cached_handle_eq st hwf font_name s f h0
    refine ⟨?_, ?_, ?_, ?_⟩
    · rw [e2, e1]
    · rw [e2, e1]
    · rw [e2, e1]
      show (Fonts.get_font st font_name s').1 ≠ f
      rw [get_font_miss_fst st font_name s' hs', hf]
      intro hc
      exact hne (congrArg FontHandle.size hc)
    · rw [e2, e1]
      show (Fonts.get_font st font_name s').2.load_count = st.load_count + 1
      exact get_font_miss_load st font_name s' hs'
  | none =>
    have e1fst := get_font_miss_fst st font_name s h0
    have hcach := get_font_miss_cached st font_name s h0
    have hoth := (get_font_miss_other st font_name s s' h0 hne).trans hs'
    have e2 : Fonts.get_font (Fonts.get_font st font_name s).2 font_name s =
        ((Fonts.get_font st font_name s).1, (Fonts.get_font st font_name s).2) :=
      (get_font_hit _ font_name s _ hcach).trans (by rw [e1fst])
    refine ⟨?_, ?_, ?_, ?_⟩
    · rw [e2]
    · rw [e2]
    · rw [e2]
      show (Fonts.get_font (Fonts.get_font st font_name s).2 font_name s').1 ≠
        (Fonts.get_font st font_name s).1
      rw [get_font_miss_fst _ font_name s' hoth, e1fst]
      intro hc
      exact hne (congrArg FontHandle.size hc)
    · rw [e2]
      show (Fonts.get_font (Fonts.get_font st font_name s).2 font_name s').2.load_count =
        (Fonts.get_font st font_name s).2.load_count + 1
      exact get_font_miss_load _ font_name s' hoth

theorem get_font_cache_behavior_witness :
    (FontsState.WF ⟨[], 0⟩) ∧ ((18 : ℕ) ≠ 17) ∧
    (Fonts.get_font (Fonts.get_font ⟨[], 0⟩ "OpenSans-Regular" 17).2 "OpenSans-Regular" 17).1 =
        (Fonts.get_font ⟨[], 0⟩ "OpenSans-Regular" 17).1 ∧
    (Fonts.get_font (Fonts.get_font ⟨[], 0⟩ "OpenSans-Regular" 17).2 "OpenSans-Regular" 17).2 =
        (Fonts.get_font ⟨[], 0⟩ "OpenSans-Regular" 17).2 ∧
    (Fonts.get_font (Fonts.get_font (Fonts.get_font ⟨[], 0⟩ "OpenSans-Regular" 17).2
        "OpenSans-Regular" 17).2 "OpenSans-Regular" 18).1 ≠
      (Fonts.get_font ⟨[], 0⟩ "OpenSans-Regular" 17).1 ∧
    (Fonts.get_font (Fonts.get_font (Fonts.get_font ⟨[], 0⟩ "OpenSans-Regular" 17).2
        "OpenSans-Regular" 17).2 "OpenSans-Regular" 18).2.load_count =
      (Fonts.get_font ⟨[], 0⟩ "OpenSans-Regular" 17).2.load_count + 1 := by
  refine ⟨by decide, by decide, ?_⟩
  have h := get_font_cache_behavior ⟨[], 0⟩ "OpenSans-Regular" 17 18
    (by decide) (by decide) (by simp [alistLookup])
  exact ⟨h.1, h.2.1, h.2.2.1, h.2.2.2⟩

/-! Claim C1: non-termination of the line-break search on an overflowing
single word. -/

theorem binary_len_search_loop :
    ∀ fuel, binary_len_search charCountWidth (availWidth 2 1) ["abcdef".data] fuel 0 0 = none := by
  intro fuel
  induction fuel with
  | zero => rfl
  | succ n ih => exact ih

theorem wrap_words_overflowing_word_none :
    ∀ fuel, wrap_words charCountWidth (availWidth 2 1) fuel ["abcdef".data] = none := by
  intro fuel
  cases fuel with
  | zero => rfl
  | succ n =>
    have h1 : binary_len_search charCountWidth (availWidth 2 1) ["abcdef".data] (n + 1) 0 1 =
        none := binary_len_search_loop n
    simp only [wrap_words, List.length_cons, List.length_nil, Nat.zero_add]
    rw [h1]

/-- Claim C1: on a single word wider than the available width the
`_binary_len_search(0, 0)` call recurses into itself forever (the forced
`index = 1` probe fails, the index is stepped back to 0 and the identical
call repeats), so `TextArea` construction never finishes, for any amount of
fuel. -/
theorem textArea_overflowing_word_nonterminating :
    ∀ fuel,
      textAreaPostInit charCountWidth (constHeight 10) fuel ("abcdef".data) 2 0 true 17 1 =
        none := by
  intro fuel
  simp only [textAreaPostInit]
  rw [if_neg (by decide)]
  rw [show splitOnSpace ("abcdef".data) = ["abcdef".data] from rfl]
  rw [wrap_words_overflowing_word_none fuel]

/-! Claim C3: word-sequence preservation of the wrap loop. -/

theorem binary_len_search_pos (wOf : Chars → ℕ) (avail : ℤ) (words : List Chars) :
    ∀ fuel mi ma k tw, binary_len_search wOf avail words fuel mi ma = some (k, tw) → 1 ≤ k := by
  intro fuel
  induction fuel with
  | zero => intro mi ma k tw h; simp [binary_len_search] at h
  | succ n ih =>
    intro mi ma k tw h
    simp only [binary_len_search] at h
    by_cases h0 : (ma + mi + 1) / 2 = 0
    · rw [if_pos h0] at h
      split at h
      · exact ih _ _ _ _ h
      · split at h
        · simp only [Option.some.injEq, Prod.mk.injEq] at h
          obtain ⟨hk, -⟩ := h
          omega
        · exact ih _ _ _ _ h
    · rw [if_neg h0] at h
      split at h
      · exact ih _ _ _ _ h
      · split at h
        · simp only [Option.some.injEq, Prod.mk.injEq] at h
          obtain ⟨hk, -⟩ := h
          omega
        · exact ih _ _ _ _ h

theorem wrap_words_flatten (wOf : Chars → ℕ) (avail : ℤ) :
    ∀ fuel words chunks, wrap_words wOf avail fuel words = some chunks →
      chunks.flatten = words ∧ ∀ c ∈ chunks, c ≠ [] := by
  intro fuel
  induction fuel with
  | zero =>
    intro words chunks h
    cases words with
    | nil =>
      simp only [wrap_words, Option.some.injEq] at h
      subst h; simp
    | cons w0 ws => simp [wrap_words] at h
  | succ n ih =>
    intro words chunks h
    cases words with
    | nil =>
      simp only [wrap_words, Option.some.injEq] at h
      subst h; simp
    | cons w0 ws =>
      simp only [wrap_words] at h
      split at h
      · exact absurd h (by simp)
      · rename_i k tw hbls
        split at h
        · exact absurd h (by simp)
        · rename_i rest hrest
          simp only [Option.some.injEq] at h
          subst h
          obtain ⟨ih1, ih2⟩ := ih _ _ hrest
          have hk := binary_len_search_pos wOf avail (w0 :: ws) _ _ _ _ _ hbls
          refine ⟨?_, ?_⟩
          · rw [List.flatten_cons, ih1]
            exact List.take_append_drop k (w0 :: ws)
          · intro c hc
            rcases List.mem_cons.mp hc with hc | hc
            · subst hc
              intro hnil
              rw [List.take_eq_nil_iff] at hnil
              rcases hnil with hnil | hnil
              · omega
              · exact List.cons_ne_nil _ _ hnil
            · exact ih2 c hc

theorem intercalate_cons_ne {α : Type} (s x : List α) (t : List (List α)) (ht : t ≠ []) :
    List.intercalate s (x :: t) = x ++ s ++ List.intercalate s t := by
  cases t with
  | nil => exact absurd rfl ht
  | cons y t' =>
    simp only [List.intercalate, List.intersperse_cons_cons, List.flatten_cons]
    simp [List.append_assoc]

theorem intercalate_append_ne {α : Type} (s : List α) (a b : List (List α))
    (ha : a ≠ []) (hb : b ≠ []) :
    List.intercalate s (a ++ b) = List.intercalate s a ++ s ++ List.intercalate s b := by
  induction a with
  | nil => exact absurd rfl ha
  | cons x a' iha =>
    cases a' with
    | nil =>
      simp only [List.nil_append, List.singleton_append]
      rw [intercalate_cons_ne s x b hb]
      simp [List.intercalate]
    | cons z a'' =>
      have ha' : z :: a'' ++ b ≠ [] := by simp
      rw [List.cons_append, intercalate_cons_ne s x _ ha', iha (by simp),
        intercalate_cons_ne s x (z :: a'') (by simp)]
      simp [List.append_assoc]

theorem flatten_ne_nil_of_mem {α : Type} (l : List (List α)) (hl : l ≠ [])
    (h : ∀ c ∈ l, c ≠ []) : l.flatten ≠ [] := by
  cases l with
  | nil => exact absurd rfl hl
  | cons c t =>
    simp only [List.flatten_cons, ne_eq, List.append_eq_nil]
    rintro ⟨h1, -⟩
    exact h c (List.mem_cons_self _ _) h1

theorem intercalate_map_intercalate {α : Type} (s : List α) :
    ∀ chunks : List (List (List α)), (∀ c ∈ chunks, c ≠ []) →
      List.intercalate s (chunks.map (List.intercalate s)) =
        List.intercalate s chunks.flatten := by
  intro chunks
  induction chunks with
  | nil => intro _; rfl
  | cons c t ih =>
    intro h
    cases t with
    | nil =>
      show List.intercalate s [List.intercalate s c] = List.intercalate s (c ++ [])
      rw [List.append_nil]
      simp [List.intercalate]
    | cons d t' =>
      have hmapt : List.map (List.intercalate s) (d :: t') ≠ [] := by simp
      have hc : c ≠ [] := h c (List.mem_cons_self _ _)
      have ht : ∀ x ∈ d :: t', x ≠ [] := fun x hx => h x (List.mem_cons_of_mem _ hx)
      have hflat : (d :: t').flatten ≠ [] := flatten_ne_nil_of_mem _ (by simp) ht
      rw [List.map_cons, intercalate_cons_ne s _ _ hmapt, ih ht,
        show List.flatten (c :: d :: t') = c ++ List.flatten (d :: t') from rfl,
        intercalate_append_ne s c (d :: t').flatten hc hflat]

/-- Claim C3: every successful wrap partitions the word sequence exactly:
flattening the chunks gives back the split words (nothing dropped,
duplicated or reordered, and every break is at a word boundary), and
re-joining the emitted lines with single spaces reproduces the original
text. -/
theorem wrap_words_rejoin (wOf : Chars → ℕ) (avail : ℤ) (fuel : ℕ) (text : Chars)
    (chunks : List (List Chars))
    (h : wrap_words wOf avail fuel (splitOnSpace text) = some chunks) :
    chunks.flatten = splitOnSpace text ∧ (∀ c ∈ chunks, c ≠ []) ∧
    List.intercalate [' '] (chunks.map joinWords) = text := by
  obtain ⟨h1, h2⟩ := wrap_words_flatten wOf avail fuel _ chunks h
  refine ⟨h1, h2, ?_⟩
  have hmap : chunks.map joinWords = chunks.map (List.intercalate [' ']) := rfl
  rw [hmap, intercalate_map_intercalate [' '] chunks h2, h1]
  exact List.intercalate_splitOn text ' '

theorem wrap_words_rejoin_witness :
    wrap_words charCountWidth 5 10 (splitOnSpace ("aa bb cc".data)) =
        some [[['a', 'a'], ['b', 'b']], [['c', 'c']]] ∧
      ([[['a', 'a'], ['b', 'b']], [['c', 'c']]] : List (List Chars)).flatten =
        splitOnSpace ("aa bb cc".data) ∧
      (∀ c ∈ ([[['a', 'a'], ['b', 'b']], [['c', 'c']]] : List (List Chars)), c ≠ []) ∧
      List.intercalate [' ']
          (([[['a', 'a'], ['b', 'b']], [['c', 'c']]] : List (List Chars)).map joinWords) =
        "aa bb cc".data := by
  refine ⟨by decide, ?_⟩
  exact wrap_words_rejoin charCountWidth 5 10 ("aa bb cc".data)
    [[['a', 'a'], ['b', 'b']], [['c', 'c']]] (by decide)

/-! Claim C2: the binary search finds the maximum fitting prefix. -/

theorem binary_len_search_sound (wOf : Chars → ℕ) (avail : ℤ) (words : List Chars)
    (hmono : ∀ j ≤ words.length, ∀ i ≤ j,
      prefixWidth wOf words i ≤ prefixWidth wOf words j) :
    ∀ fuel mi ma k tw,
      mi ≤ ma → ma ≤ words.length →
      (1 ≤ mi → (prefixWidth wOf words mi : ℤ) ≤ avail) →
      (ma < words.length → avail < (prefixWidth wOf words (ma + 1) : ℤ)) →
      (mi = 0 → ma = 0 → avail < (prefixWidth wOf words 1 : ℤ)) →
      binary_len_search wOf avail words fuel mi ma = some (k, tw) →
      1 ≤ k ∧ k ≤ words.length ∧ tw = prefixWidth wOf words k ∧
        ((prefixWidth wOf words k : ℤ) ≤ avail) ∧
        (k < words.length → avail < (prefixWidth wOf words (k + 1) : ℤ)) := by
  intro fuel
  induction fuel with
  | zero => intro mi ma k tw _ _ _ _ _ h; simp [binary_len_search] at h
  | succ n ih =>
    intro mi ma k tw h1 h2 h3 h4 h5 h
    simp only [binary_len_search] at h
    by_cases h0 : (ma + mi + 1) / 2 = 0
    · -- the range has collapsed to (0, 0); the probe is forced to 1
      have hmi : mi = 0 := by omega
      have hma : ma = 0 := by omega
      subst hmi; subst hma
      rw [if_pos h0] at h
      have hW1 := h5 rfl rfl
      rw [if_pos hW1] at h
      norm_num at h
      exact ih 0 0 k tw le_rfl h2 (by omega) (fun _ => hW1) (fun _ _ => hW1) h
    · rw [if_neg h0] at h
      set idx := (ma + mi + 1) / 2 with hidx
      have hidx1 : 1 ≤ idx := by omega
      by_cases hlt : avail < (prefixWidth wOf words idx : ℤ)
      · rw [if_pos hlt] at h
        by_cases hdec : mi + 1 = idx
        · rw [if_pos hdec] at h
          have hsub : idx - 1 = mi := by omega
          rw [hsub] at h
          refine ih mi mi k tw le_rfl (le_trans h1 h2) h3 ?_ ?_ h
          · intro _
            rw [hdec]
            exact hlt
          · intro hmi0 _
            rw [show (1 : ℕ) = idx from by omega]
            exact hlt
        · rw [if_neg hdec] at h
          have hma : mi < ma := by
            by_contra hcon
            have heqm : mi = ma := by omega
            have hidxm : idx = mi := by omega
            rcases Nat.eq_zero_or_pos mi with hz | hp
            · omega
            · have := h3 hp
              rw [hidxm] at hlt
              omega
          have hr1 : mi + 1 ≤ idx := by omega
          have hr2 : idx ≤ ma := by omega
          refine ih mi idx k tw (by omega) (by omega) h3 ?_ ?_ h
          · intro hidx_lt
            have hmono1 := hmono (idx + 1) (by omega) idx (by omega)
            omega
          · intro _ hidx0
            omega
      · rw [if_neg hlt] at h
        by_cases heq : idx = ma
        · rw [if_pos heq] at h
          simp only [Option.some.injEq, Prod.mk.injEq] at h
          obtain ⟨hk, htw⟩ := h
          subst hk
          refine ⟨hidx1, by omega, htw.symm, by omega, ?_⟩
          intro _
          have := h4 (by omega)
          rw [heq]
          exact this
        · rw [if_neg heq] at h
          have hma : mi < ma := by
            by_contra hcon
            have heqm : mi = ma := by omega
            have hidxm : idx = mi := by omega
            rcases Nat.eq_zero_or_pos mi with hz | hp
            · omega
            · exact heq (by omega)
          have hr1 : mi + 1 ≤ idx := by omega
          have hr2 : idx ≤ ma := by omega
          refine ih idx ma k tw (by omega) h2 ?_ h4 ?_ h
          · intro _
            exact Int.not_lt.mp hlt
          · intro hidx0 _
            omega

/-- Claim C2: every successful wrap emits, at each step, the maximum prefix
of the remaining words whose space-joined measured width fits the available
width (for a width measure that is monotone in the number of words taken),
and consequently every emitted line's measured width is within the
available width. -/
theorem wrap_words_max_fit (wOf : Chars → ℕ) (avail : ℤ) :
    ∀ fuel (words : List Chars) chunks,
      (∀ d ≤ words.length, ∀ j ≤ (words.drop d).length, ∀ i ≤ j,
        prefixWidth wOf (words.drop d) i ≤ prefixWidth wOf (words.drop d) j) →
      wrap_words wOf avail fuel words = some chunks →
      maxFitChunks wOf avail words chunks ∧
        ∀ c ∈ chunks, ((wOf (joinWords c) : ℤ) ≤ avail) := by
  intro fuel
  induction fuel with
  | zero =>
    intro words chunks hmono h
    cases words with
    | nil =>
      simp only [wrap_words, Option.some.injEq] at h
      subst h
      exact ⟨by simp [maxFitChunks], by simp⟩
    | cons w0 ws => simp [wrap_words] at h
  | succ n ih =>
    intro words chunks hmono h
    cases words with
    | nil =>
      simp only [wrap_words, Option.some.injEq] at h
      subst h
      exact ⟨by simp [maxFitChunks], by simp⟩
    | cons w0 ws =>
      simp only [wrap_words] at h
      split at h
      · exact absurd h (by simp)
      · rename_i k tw hbls
        split at h
        · exact absurd h (by simp)
        · rename_i rest hrest
          simp only [Option.some.injEq] at h
          subst h
          have hm0 : ∀ j ≤ (w0 :: ws).length, ∀ i ≤ j,
              prefixWidth wOf (w0 :: ws) i ≤ prefixWidth wOf (w0 :: ws) j := by
            have := hmono 0 (Nat.zero_le _)
            simpa using this
          obtain ⟨hk1, hk2, htw, hfit, hbound⟩ :=
            binary_len_search_sound wOf avail (w0 :: ws) hm0 (n + 1) 0 (w0 :: ws).length k tw
              (Nat.zero_le _) le_rfl (by omega) (by omega) (by simp) hbls
          have hmono' : ∀ d ≤ ((w0 :: ws).drop k).length,
              ∀ j ≤ (((w0 :: ws).drop k).drop d).length, ∀ i ≤ j,
                prefixWidth wOf (((w0 :: ws).drop k).drop d) i ≤
                  prefixWidth wOf (((w0 :: ws).drop k).drop d) j := by
            intro d hd
            rw [List.drop_drop]
            have hdk : k + d ≤ (w0 :: ws).length := by
              rw [List.length_drop] at hd; omega
            exact hmono (k + d) hdk
          obtain ⟨ihm, ihw⟩ := ih ((w0 :: ws).drop k) rest hmono' hrest
          refine ⟨⟨k, hk1, hk2, rfl, hfit, ?_, ihm⟩, ?_⟩
          · intro j hj hfitj
            by_contra hgt
            push_neg at hgt
            have hkl : k < (w0 :: ws).length := by omega
            have hb := hbound hkl
            have hmj := hm0 j hj (k + 1) (by omega)
            omega
          · intro c hc
            rcases List.mem_cons.mp hc with hc | hc
            · subst hc
              exact hfit
            · exact ihw c hc

theorem wrap_words_max_fit_witness :
    (∀ d ≤ (splitOnSpace ("aa bb cc".data)).length,
        ∀ j ≤ ((splitOnSpace ("aa bb cc".data)).drop d).length, ∀ i ≤ j,
          prefixWidth charCountWidth ((splitOnSpace ("aa bb cc".data)).drop d) i ≤
            prefixWidth charCountWidth ((splitOnSpace ("aa bb cc".data)).drop d) j) ∧
    maxFitChunks charCountWidth 5 (splitOnSpace ("aa bb cc".data))
        [[['a', 'a'], ['b', 'b']], [['c', 'c']]] ∧
    (∀ c ∈ ([[['a', 'a'], ['b', 'b']], [['c', 'c']]] : List (List Chars)),
        ((charCountWidth (joinWords c) : ℤ) ≤ 5)) := by
  refine ⟨by decide, ?_, ?_⟩
  · exact (wrap_words_max_fit charCountWidth 5 10 (splitOnSpace ("aa bb cc".data))
      [[['a', 'a'], ['b', 'b']], [['c', 'c']]] (by decide) (by decide)).1
  · exact (wrap_words_max_fit charCountWidth 5 10 (splitOnSpace ("aa bb cc".data))
      [[['a', 'a'], ['b', 'b']], [['c', 'c']]] (by decide) (by decide)).2

end Components
